/-
Verification of the gslog asynchronous log-event dispatch engine.

The definitions below are a shallow embedding of the Go package gslog
(message.go, formatter.go, slogger.go and the handler code of the repository).
Conventions of the embedding:

* Go maps with string keys are modelled as association lists together with
  the update function mapSet (assignment m[k] = v overrides the existing
  binding) and the lookup mapGet.  A possibly-nil Go map is modelled as an
  Option of such a list: none models a nil map.
* Go maps are reference values: a struct copy of a logEntry shares its
  context/sensitive maps with the original.  Functions that write through a
  shared map therefore return, next to their ordinary result, the
  caller-visible value of the affected logEntry after the call.
* Go run-time panics (close of a closed channel, assignment to an entry of a
  nil map) are modelled by the GoResult.crash constructor; returned errors by
  GoResult.err.
* runtime.Caller is an ambient effect and is passed in as an explicit
  Option CallerInfo parameter (none models ok = false).
* io.Writer destinations are modelled as the list of chunks written so far;
  writes in this model always succeed (no claim concerns failing writers).
-/
import Mathlib

set_option autoImplicit false

namespace GSLog

/-- A value stored in an event context: a shallow model of the dynamic values
the repository actually places into its map of string to any (strings,
integers and booleans). -/
inductive GoVal where
  | str (s : String)
  | int (n : Int)
  | bool (b : Bool)
deriving DecidableEq

/-- Rendering of a GoVal by fmt.Sprintf with the %v verb. -/
def GoVal.format : GoVal → String
  | .str s => s
  | .int n => toString n
  | .bool b => if b then "true" else "false"

/-- True when the dynamic value is a string (used for the key-position check
of newMessageSafe). -/
def GoVal.isStr : GoVal → Bool
  | .str _ => true
  | _ => false

/-- Go map assignment m[k] = v: replace the binding of k when present,
otherwise append the new binding. -/
def mapSet {α : Type} : List (String × α) → String → α → List (String × α)
  | [], k, v => [(k, v)]
  | (k1, v1) :: rest, k, v =>
    if k1 = k then (k, v) :: rest else (k1, v1) :: mapSet rest k v

/-- Go map lookup m[k]. -/
def mapGet {α : Type} : List (String × α) → String → Option α
  | [], _ => none
  | (k1, v1) :: rest, k => if k1 = k then some v1 else mapGet rest k

/-- maps.Copy(dst, src): every binding of src is assigned into dst. -/
def goMapsCopy {α : Type} (dst src : List (String × α)) : List (String × α) :=
  src.foldl (fun d kv => mapSet d kv.1 kv.2) dst

/-- Outcome of a Go call: nil error, a returned non-nil error, or a run-time
panic. -/
inductive GoResult where
  | ok
  | err (msg : String)
  | crash (msg : String)
deriving DecidableEq

/-- Level as defined in the source: a label with an integer importance. -/
structure Level where
  label : String
  importance : Int
deriving DecidableEq

def FATAL : Level := ⟨"FATAL", 9999⟩

def ERROR : Level := ⟨"ERROR", 9000⟩

def WARN : Level := ⟨"WARN", 5000⟩

def INFO : Level := ⟨"INFO", 2000⟩

def DEBUG : Level := ⟨"DEBUG", 42⟩

def TRACE : Level := ⟨"TRACE", 10⟩

/-- lv.isLessThan(comparison) compares importances only. -/
def Level.isLessThan (lv comparison : Level) : Bool :=
  lv.importance < comparison.importance

/-- A wall-clock instant, precise to the second (all the repository ever
formats). -/
structure GoTime where
  year : Nat
  month : Nat
  day : Nat
  hour : Nat
  minute : Nat
  second : Nat
deriving DecidableEq

def pad2 (n : Nat) : String :=
  if n < 10 then "0" ++ toString n else toString n

def pad4 (n : Nat) : String :=
  if n < 10 then "000" ++ toString n
  else if n < 100 then "00" ++ toString n
  else if n < 1000 then "0" ++ toString n
  else toString n

/-- t.Format(time.DateTime), the Go layout 2006-01-02 15:04:05. -/
def goDateTime (t : GoTime) : String :=
  pad4 t.year ++ "-" ++ pad2 t.month ++ "-" ++ pad2 t.day ++ " " ++
    pad2 t.hour ++ ":" ++ pad2 t.minute ++ ":" ++ pad2 t.second

/-- The logEntry struct of message.go.  The zero value of a Go map field is
nil, modelled by none; the struct defaults below are the Go zero values. -/
structure logEntry where
  message : String := ""
  timestamp : GoTime := ⟨1, 1, 1, 0, 0, 0⟩
  level : Level := ⟨"", 0⟩
  file : String := ""
  funcName : String := ""
  lineNum : Int := 0
  tags : List String := []
  sensitive : Option (List (String × Int)) := none
  context : Option (List (String × GoVal)) := none
deriving DecidableEq

/-- The EntryDTO wire projection of message.go. -/
structure EntryDTO where
  time : GoTime
  level : String
  message : String
  context : List (String × GoVal)
deriving DecidableEq

/-- obfuscate of message.go: one placeholder character per rune of the %v
rendering of the value (strings.SplitSeq with the empty separator yields one
element per rune); the paranoia argument is never read. -/
def obfuscate (val : GoVal) (paranoia : Int) : String :=
  String.mk (val.format.data.map (fun _ => '?'))

/-- The result of runtime.Caller(3) as observed by packFields: none models
the ok = false case. -/
structure CallerInfo where
  file : String
  funcName : String
  line : Int
deriving DecidableEq

/-- The sensitive-key loop of packFields, processing the bindings of the
sensitive map in order over the (shared) context map.  Returns the error (if
any) together with the state of the context map at the moment of return. -/
def applySensitive :
    List (String × Int) → List (String × GoVal) →
      Option String × List (String × GoVal)
  | [], ctx => (none, ctx)
  | (key, paranoia) :: rest, ctx =>
    if key = "" then (some "empty key provided as sensetive", ctx)
    else
      match mapGet ctx key with
      | none =>
        (some ("key " ++ key ++ " is set as sensetive, but was not found in fields"), ctx)
      | some val => applySensitive rest (mapSet ctx key (.str (obfuscate val paranoia)))

/-- packFields of message.go.  When the event's importance is at most DEBUG's
the caller keys file, func and line are assigned into the context before the
sensitive loop runs (the assignments happen whether or not runtime.Caller
reported ok; only the assigned values depend on it).  The second component is
the final state of the context map, which the caller of packFields observes
through the shared map whenever the original context was non-nil. -/
def packFields (callerInfo : Option CallerInfo) (m : logEntry) :
    Except String EntryDTO × List (String × GoVal) :=
  let ctx0 := m.context.getD []
  let fileV := match callerInfo with | some c => c.file | none => m.file
  let funcV := match callerInfo with | some c => c.funcName | none => m.funcName
  let lineV := match callerInfo with | some c => c.line | none => m.lineNum
  let ctx1 :=
    if m.level.importance ≤ DEBUG.importance then
      mapSet (mapSet (mapSet ctx0 "file" (.str fileV)) "func" (.str funcV)) "line" (.int lineV)
    else ctx0
  match applySensitive (m.sensitive.getD []) ctx1 with
  | (some e, ctxF) => (.error e, ctxF)
  | (none, ctxF) => (.ok ⟨m.timestamp, m.level.label, m.message, ctxF⟩, ctxF)

/-- The argument loop of newMessageSafe.  The Bool is the parity of the
current index: false at even (key) positions, true at odd (value) positions;
the String is the key variable of the loop. -/
def parseArgs :
    List GoVal → Bool → String → List (String × GoVal) →
      Except String (List (String × GoVal))
  | [], _, _, ctx => .ok ctx
  | a :: rest, false, _, ctx =>
    match a with
    | .str k => parseArgs rest true k ctx
    | _ => .error "expect string as a key on even positions of arguments"
  | v :: rest, true, key, ctx => parseArgs rest false key (mapSet ctx key v)

/-- newMessageSafe of message.go; time.Now() is passed in explicitly. -/
def newMessageSafe (timeNow : GoTime) (text : String) (args : List GoVal) :
    Except String logEntry :=
  match parseArgs args false "" [] with
  | .error e => .error e
  | .ok ctx => .ok { message := text, timestamp := timeNow, context := some ctx }

/-- NewMessageSafe simply forwards to newMessageSafe. -/
def NewMessageSafe (timeNow : GoTime) (text : String) (args : List GoVal) :
    Except String logEntry :=
  newMessageSafe timeNow text args

/-- WithLevel has a value receiver and assigns a plain struct field, so the
caller's event is unchanged.  The first component is the caller-visible
original after the call, the second the returned copy. -/
def WithLevel (m : logEntry) (level : Level) : logEntry × logEntry :=
  (m, { m with level := level })

/-- WithTags, same value semantics as WithLevel. -/
def WithTags (m : logEntry) (tags : List String) : logEntry × logEntry :=
  (m, { m with tags := tags })

/-- WithSensitive of message.go.  When the receiver's sensitive map is nil a
fresh map is allocated for the local copy only; when it is non-nil the copy
shares the map with the original, so the assignment is visible to both.  The
first component is the caller-visible original after the call. -/
def WithSensitive (m : logEntry) (key : String) (paranoia : Int) :
    logEntry × logEntry :=
  match m.sensitive with
  | none => (m, { m with sensitive := some (mapSet [] key paranoia) })
  | some s =>
    ({ m with sensitive := some (mapSet s key paranoia) },
     { m with sensitive := some (mapSet s key paranoia) })

/-- strings.TrimSuffix(s, suffix): when suffix is a suffix of s, s without
that suffix; otherwise s unchanged. -/
def goTrimSuffix (s suffix : String) : String :=
  if suffix.data.length ≤ s.data.length ∧
      s.data.drop (s.data.length - suffix.data.length) = suffix.data then
    String.mk (s.data.take (s.data.length - suffix.data.length))
  else s

/-- Lexicographic comparison of rune sequences; on UTF-8 encoded strings it
coincides with Go's byte-wise string order. -/
def listLexLe : List Char → List Char → Bool
  | [], _ => true
  | _ :: _, [] => false
  | a :: as, b :: bs =>
    if a.toNat < b.toNat then true
    else if b.toNat < a.toNat then false
    else listLexLe as bs

/-- Go string comparison a <= b. -/
def strLe (a b : String) : Bool :=
  listLexLe a.data b.data

/-- Insertion into a lexicographically sorted list of strings. -/
def insertSorted (x : String) : List String → List String
  | [] => [x]
  | y :: rest => if strLe x y then x :: y :: rest else y :: insertSorted x rest

/-- slices.Sort on strings: the sorted permutation of the keys (Go's byte
order and Lean's code-point order agree on UTF-8 encoded strings, and the
sorted permutation of a list of strings is unique, so insertion sort is
observably the same function). -/
def sortStrings (l : List String) : List String :=
  l.foldr insertSorted []

/-- The key="value" rendering of one context binding (a missing key would
print the nil interface). -/
def ctxChunkCore (ctx : List (String × GoVal)) (k : String) : String :=
  k ++ "=\"" ++ (match mapGet ctx k with | some v => v.format | none => "<nil>") ++ "\""

/-- One chunk appended by the key loop of basicFormatter.Format: the Sprintf
layout key="value" followed by a semicolon and a space. -/
def ctxChunk (ctx : List (String × GoVal)) (k : String) : String :=
  ctxChunkCore ctx k ++ "; "

/-- basicFormatter.Format of formatter.go. -/
def basicFormat (e : EntryDTO) : String :=
  if e.message = "" ∧ e.context.length = 0 then ""
  else
    let s0 := goDateTime e.time ++ " [" ++ e.level ++ "]" ++ " " ++ e.message
    let keys := sortStrings (e.context.map Prod.fst)
    let s1 := if 0 < e.context.length then s0 ++ ": " else s0
    let s2 := keys.foldl (fun acc k => acc ++ ctxChunk e.context k) s1
    goTrimSuffix s2 "; "

/-- Joining strings with a separator; used to state the specification's
rendition of the formatter line and of Go's %v for string slices. -/
def sepJoin (sep : String) : List String → String
  | [] => ""
  | [x] => x
  | x :: y :: rest => x ++ sep ++ sepJoin sep (y :: rest)

/-- Modelled from the spec's words (section 4.3): the single line
TIME [LEVEL] message: key1="val1"; key2="val2", built by joining the sorted
key renderings with a semicolon separator (the quoting of values is the
amendment this development establishes against the spec's bare key1=val1). -/
def specLine (e : EntryDTO) : String :=
  goDateTime e.time ++ " [" ++ e.level ++ "]" ++ " " ++ e.message ++ ": " ++
    sepJoin "; " ((sortStrings (e.context.map Prod.fst)).map (ctxChunkCore e.context))

/-- The substring relation on strings: sub occurs contiguously inside s. -/
def strContains (sub s : String) : Prop :=
  ∃ a b, s.data = a ++ sub.data ++ b

/-- The alternating key/value shape of a valid argument list: the flattening
of a list of (string key, value) pairs. -/
def interleave : List (String × GoVal) → List GoVal
  | [] => []
  | (k, v) :: rest => .str k :: v :: interleave rest

/-- The arguments sitting at even indices of a list (the key positions of
newMessageSafe). -/
def evenPositions : List GoVal → List GoVal
  | [] => []
  | [a] => [a]
  | a :: _ :: rest => a :: evenPositions rest

/-- The messageHandler struct.  writerSet models writter being non-nil; the
formatter field holds the configured Formatter's Format function, none
modelling a nil formatter. -/
structure messageHandler where
  writerSet : Bool := true
  formatter : Option (EntryDTO → String) := none
  minLevel : Level := INFO
  maxLevel : Level := FATAL
  tagsRequired : List String := []
  tagsForbidden : List String := []
  autoFields : Option (List (String × GoVal)) := none

/-- The mutable state one Handle call touches: the chunks already written to
this handler's destination, and the package-level signalShutdown flag. -/
structure HandlerSt where
  out : List String
  signalShutdown : Bool
deriving DecidableEq

/-- messageHandler.ForceShutdown: sets the package-level flag. -/
def ForceShutdown (st : HandlerSt) : HandlerSt :=
  { st with signalShutdown := true }

/-- JSON string escaping for the common characters; HTML and exotic control
escaping is elided, as no claim inspects the canonical encoding's bytes. -/
def jsonEscape (s : String) : String :=
  String.join (s.data.map (fun c =>
    if c = '"' then "\\\"" else if c = '\\' then "\\\\"
    else if c = '\n' then "\\n" else if c = '\t' then "\\t"
    else if c = '\r' then "\\r" else String.mk [c]))

def jsonQuote (s : String) : String :=
  "\"" ++ jsonEscape s ++ "\""

def jsonVal : GoVal → String
  | .str s => jsonQuote s
  | .int n => toString n
  | .bool b => if b then "true" else "false"

/-- time.Time marshals as an RFC3339 string; the model carries no zone and
renders Z. -/
def jsonTime (t : GoTime) : String :=
  pad4 t.year ++ "-" ++ pad2 t.month ++ "-" ++ pad2 t.day ++ "T" ++
    pad2 t.hour ++ ":" ++ pad2 t.minute ++ ":" ++ pad2 t.second ++ "Z"

/-- json.Marshal of an EntryDTO (Go sorts map keys when encoding; the context
field carries omitempty). -/
def jsonMarshalDTO (dto : EntryDTO) : String :=
  "\x7b\"time\":" ++ jsonQuote (jsonTime dto.time) ++
    ",\"level\":" ++ jsonQuote dto.level ++
    ",\"message\":" ++ jsonQuote dto.message ++
    (if dto.context.length = 0 then ""
     else ",\"context\":\x7b" ++
       sepJoin "," ((sortStrings (dto.context.map Prod.fst)).map
         (fun k => jsonQuote k ++ ":" ++
           (match mapGet dto.context k with | some v => jsonVal v | none => "null"))) ++
       "\x7d") ++
  "\x7d"

/-- The marshal-format-write-escalate tail of Handle, shared by the nil- and
non-nil-context branches: the written chunk is the canonical encoding plus a
newline, or the formatter's rendering plus a newline; a FATAL-or-above event
then raises the shutdown signal. -/
def handleWrite (mh : messageHandler) (m : logEntry) (st : HandlerSt) (dto : EntryDTO) :
    GoResult × logEntry × HandlerSt :=
  let data :=
    match mh.formatter with
    | none => jsonMarshalDTO dto ++ "\n"
    | some f => f dto ++ "\n"
  let st1 : HandlerSt := { st with out := st.out ++ [data] }
  if FATAL.importance ≤ m.level.importance then (.ok, m, ForceShutdown st1)
  else (.ok, m, st1)

/-- messageHandler.Handle.  Returns the outcome of the call, the
caller-visible event after the call (the context map is shared between the
caller and the handler, so maps.Copy and packFields write through it), and
the new writer/flag state.  maps.Copy into a nil destination map panics in Go
when the source is non-empty. -/
def Handle (mh : messageHandler) (ci : Option CallerInfo) (m : logEntry)
    (st : HandlerSt) : GoResult × logEntry × HandlerSt :=
  if mh.writerSet = false then (.err "no writer", m, st)
  else if m.level.isLessThan mh.minLevel then (.err "below miminum level", m, st)
  else if mh.maxLevel.isLessThan m.level then (.err "above maixmum level", m, st)
  else
    match m.context with
    | none =>
      if (mh.autoFields.getD []).length = 0 then
        match (packFields ci m).1 with
        | .error e => (.err ("message lost: " ++ e), m, st)
        | .ok dto => handleWrite mh m st dto
      else (.crash "assignment to entry in nil map", m, st)
    | some ctx =>
      let ctx1 := goMapsCopy ctx (mh.autoFields.getD [])
      let m1 : logEntry := { m with context := some ctx1 }
      match packFields ci m1 with
      | (.error e, ctxF) => (.err ("message lost: " ++ e), { m1 with context := some ctxF }, st)
      | (.ok dto, ctxF) => handleWrite mh { m1 with context := some ctxF } st dto

/-- One named handler of the dispatcher's handler set, together with the
chunks written to its destination so far. -/
structure HandlerEntry where
  name : String
  mh : messageHandler
  out : List String

/-- The outcome of the handler loop of processMessage. -/
structure RunOutcome where
  crash : Option String
  processed : Nat
  reasons : List String
  handlers : List HandlerEntry
  event : logEntry
  signal : Bool

/-- The handler loop of processMessage: each handler's Handle is invoked on
the (shared) event; nil results are counted in processed, error texts are
collected into reasons, and a run-time panic aborts the loop. -/
def runHandlers (ci : Option CallerInfo) :
    List HandlerEntry → logEntry → Bool → Nat → List String → RunOutcome
  | [], m, sig, processed, reasons => ⟨none, processed, reasons, [], m, sig⟩
  | he :: rest, m, sig, processed, reasons =>
    match Handle he.mh ci m ⟨he.out, sig⟩ with
    | (.ok, m1, st1) =>
      let r := runHandlers ci rest m1 st1.signalShutdown (processed + 1) reasons
      { r with handlers := { he with out := st1.out } :: r.handlers }
    | (.err e, m1, st1) =>
      let r := runHandlers ci rest m1 st1.signalShutdown processed (reasons ++ [e])
      { r with handlers := { he with out := st1.out } :: r.handlers }
    | (.crash e, m1, st1) =>
      ⟨some e, processed, reasons, { he with out := st1.out } :: rest, m1, st1.signalShutdown⟩

/-- fmt %v of a Go string slice: the reasons list renders inside brackets,
space separated. -/
def goFmtStrSlice (l : List String) : String :=
  "[" ++ sepJoin " " l ++ "]"

/-- logger.processMessage of slogger.go (the handler-set version of the
function, as resolved in the repository's conflict-free copy).  Returns the
outcome together with the updated handler outputs, the signalShutdown flag
and the caller-visible event. -/
def processMessage (ci : Option CallerInfo) (handlers : List HandlerEntry)
    (sig : Bool) (m : logEntry) :
    GoResult × List HandlerEntry × Bool × logEntry :=
  if handlers.length = 0 then (.err "message lost: no handlers", handlers, sig, m)
  else
    let r := runHandlers ci handlers m sig 0 []
    match r.crash with
    | some e => (.crash e, r.handlers, r.signal, r.event)
    | none =>
      if r.processed = 0 then
        (.err ("message lost: " ++ goFmtStrSlice r.reasons), r.handlers, r.signal, r.event)
      else (.ok, r.handlers, r.signal, r.event)

/-- The dispatcher's input channel, the only state logger.shutdown touches. -/
structure DispatcherChan where
  closed : Bool
deriving DecidableEq

/-- logger.shutdown: close(l.inputChannel), then a sleep with no modelled
effect.  Go's close panics when the channel is already closed. -/
def shutdown (c : DispatcherChan) : GoResult × DispatcherChan :=
  if c.closed then (.crash "close of closed channel", c) else (.ok, ⟨true⟩)

/-- C10: obfuscate returns the same masked string for every pair of paranoia
intensities: the output depends only on the value. -/
theorem c10_obfuscate_ignores_paranoia (val : GoVal) (p1 p2 : Int) :
    obfuscate val p1 = obfuscate val p2 := rfl

theorem mapGet_mapSet_self {α : Type} (m : List (String × α)) (k : String) (v : α) :
    mapGet (mapSet m k v) k = some v := by
  induction m with
  | nil => simp [mapSet, mapGet]
  | cons kv rest ih =>
    obtain ⟨k1, v1⟩ := kv
    by_cases h : k1 = k
    · simp [mapSet, h, mapGet]
    · simp [mapSet, h, mapGet, ih]

theorem mapGet_mapSet_ne {α : Type} (m : List (String × α)) {k1 k : String} (v : α)
    (h : k1 ≠ k) : mapGet (mapSet m k1 v) k = mapGet m k := by
  induction m with
  | nil => simp [mapSet, mapGet, h]
  | cons kv rest ih =>
    obtain ⟨k2, v2⟩ := kv
    by_cases h2 : k2 = k1
    · subst h2
      simp [mapSet, mapGet, h]
    · have h4 : ¬ k = k1 := fun he => h he.symm
      by_cases h3 : k2 = k
      · simp [mapSet, h2, mapGet, h3, h4]
      · simp [mapSet, h2, mapGet, h3, h4, ih]

theorem applySensitive_not_mem (l : List (String × Int)) {k : String}
    (h : k ∉ l.map Prod.fst) (ctx : List (String × GoVal)) :
    mapGet (applySensitive l ctx).2 k = mapGet ctx k := by
  induction l generalizing ctx with
  | nil => rfl
  | cons kp rest ih =>
    obtain ⟨key, par⟩ := kp
    simp only [List.map_cons, List.mem_cons, not_or] at h
    obtain ⟨hne, hrest⟩ := h
    by_cases hk : key = ""
    · simp [applySensitive, hk]
    · cases hg : mapGet ctx key with
      | none => simp [applySensitive, hk, hg]
      | some v =>
        simp only [applySensitive, hk, hg, if_false, ite_false]
        rw [ih hrest, mapGet_mapSet_ne _ _ (fun he => hne he.symm)]

theorem applySensitive_err (l : List (String × Int)) (ctx : List (String × GoVal))
    (h : ∃ kp ∈ l, kp.1 = "" ∨ mapGet ctx kp.1 = none) :
    ∃ e, (applySensitive l ctx).1 = some e := by
  induction l generalizing ctx with
  | nil => simp at h
  | cons kp0 rest ih =>
    obtain ⟨key, par⟩ := kp0
    by_cases hk : key = ""
    · exact ⟨"empty key provided as sensetive", by simp [applySensitive, hk]⟩
    · cases hg : mapGet ctx key with
      | none =>
        exact ⟨"key " ++ key ++ " is set as sensetive, but was not found in fields",
          by simp [applySensitive, hk, hg]⟩
      | some v =>
        obtain ⟨bp, hbp, hbad⟩ := h
        rcases List.mem_cons.mp hbp with heq | hmem
        · exfalso
          rw [heq] at hbad
          rcases hbad with hb1 | hb2
          · exact hk hb1
          · rw [hg] at hb2
            cases hb2
        · have hbad2 : bp.1 = "" ∨
              mapGet (mapSet ctx key (.str (obfuscate v par))) bp.1 = none := by
            rcases hbad with hb1 | hb2
            · exact Or.inl hb1
            · refine Or.inr ?_
              have hne : key ≠ bp.1 := by
                intro he
                rw [he, hb2] at hg
                cases hg
              rw [mapGet_mapSet_ne _ _ hne]
              exact hb2
          obtain ⟨e, he⟩ := ih (mapSet ctx key (.str (obfuscate v par))) ⟨bp, hmem, hbad2⟩
          exact ⟨e, by simp [applySensitive, hk, hg, he]⟩

theorem applySensitive_ok (l : List (String × Int)) (ctx : List (String × GoVal))
    (h : ∀ kp ∈ l, kp.1 ≠ "" ∧ (mapGet ctx kp.1).isSome = true) :
    (applySensitive l ctx).1 = none := by
  induction l generalizing ctx with
  | nil => rfl
  | cons kp0 rest ih =>
    obtain ⟨key, par⟩ := kp0
    obtain ⟨hk, hs⟩ := h (key, par) (List.mem_cons_self _ _)
    obtain ⟨v, hv⟩ := Option.isSome_iff_exists.mp hs
    have hrest : ∀ kp2 ∈ rest, kp2.1 ≠ "" ∧
        (mapGet (mapSet ctx key (.str (obfuscate v par))) kp2.1).isSome = true := by
      intro kp2 hm
      obtain ⟨hk2, hs2⟩ := h kp2 (List.mem_cons_of_mem _ hm)
      refine ⟨hk2, ?_⟩
      by_cases he : key = kp2.1
      · rw [he, mapGet_mapSet_self]
        rfl
      · rw [mapGet_mapSet_ne _ _ he]
        exact hs2
    simp [applySensitive, hk, hv, ih _ hrest]

theorem applySensitive_val (l : List (String × Int)) (ctx : List (String × GoVal))
    {k : String} {p : Int} {v : GoVal}
    (hnd : (l.map Prod.fst).Nodup) (hmem : (k, p) ∈ l)
    (hget : mapGet ctx k = some v)
    (hgood : ∀ kp ∈ l, kp.1 ≠ "" ∧ (mapGet ctx kp.1).isSome = true) :
    mapGet (applySensitive l ctx).2 k = some (.str (obfuscate v p)) := by
  induction l generalizing ctx with
  | nil => cases hmem
  | cons kp0 rest ih =>
    obtain ⟨key, par⟩ := kp0
    obtain ⟨hk, hs⟩ := hgood (key, par) (List.mem_cons_self _ _)
    obtain ⟨v0, hv0⟩ := Option.isSome_iff_exists.mp hs
    simp only [List.map_cons, List.nodup_cons] at hnd
    obtain ⟨hnotin, hnd2⟩ := hnd
    rcases List.mem_cons.mp hmem with heq | hmem2
    · injection heq with h1 h2
      subst h1
      subst h2
      have hvv : v0 = v := by
        rw [hv0] at hget
        injection hget
      subst hvv
      simp only [applySensitive, hk, hv0, if_false, ite_false]
      rw [applySensitive_not_mem rest hnotin, mapGet_mapSet_self]
    · have hne : key ≠ k := by
        intro he
        apply hnotin
        rw [he]
        exact List.mem_map_of_mem Prod.fst hmem2
      have hget2 : mapGet (mapSet ctx key (.str (obfuscate v0 par))) k = some v := by
        rw [mapGet_mapSet_ne _ _ hne]
        exact hget
      have hgood2 : ∀ kp2 ∈ rest, kp2.1 ≠ "" ∧
          (mapGet (mapSet ctx key (.str (obfuscate v0 par))) kp2.1).isSome = true := by
        intro kp2 hm
        obtain ⟨hk2, hs2⟩ := hgood kp2 (List.mem_cons_of_mem _ hm)
        refine ⟨hk2, ?_⟩
        by_cases he : key = kp2.1
        · rw [he, mapGet_mapSet_self]
          rfl
        · rw [mapGet_mapSet_ne _ _ he]
          exact hs2
      simp only [applySensitive, hk, hv0, if_false, ite_false]
      exact ih (mapSet ctx key (.str (obfuscate v0 par))) hnd2 hmem2 hget2 hgood2

theorem handleWrite_ok (mh : messageHandler) (m : logEntry) (st : HandlerSt)
    (dto : EntryDTO) :
    (handleWrite mh m st dto).1 = .ok ∧ (handleWrite mh m st dto).2.1 = m := by
  unfold handleWrite
  split <;> split <;> simp [ForceShutdown]

/-- Handle never panics on an event whose context map is non-nil, and the
caller-visible event after the call still has a non-nil context. -/
theorem Handle_total (mh : messageHandler) (ci : Option CallerInfo) (m : logEntry)
    (st : HandlerSt) (h : m.context.isSome = true) :
    ((Handle mh ci m st).1 = .ok ∨ ∃ e, (Handle mh ci m st).1 = .err e) ∧
    ((Handle mh ci m st).2.1).context.isSome = true := by
  cases hc : m.context with
  | none => rw [hc] at h; cases h
  | some ctx =>
    simp only [Handle, hc]
    by_cases hw : mh.writerSet = false
    · simp [hw, hc]
    · simp only [hw, if_false, ite_false]
      by_cases h1 : m.level.isLessThan mh.minLevel
      · simp [h1, hc]
      · simp only [h1, if_false, ite_false]
        by_cases h2 : mh.maxLevel.isLessThan m.level
        · simp [h2, hc]
        · simp only [h2, if_false, ite_false]
          cases hp : packFields ci { m with context := some (goMapsCopy ctx (mh.autoFields.getD [])) } with
          | mk res ctxF =>
            cases res with
            | error e => simp [hp]
            | ok dto =>
              simp only [hp]
              obtain ⟨hw1, hw2⟩ := handleWrite_ok mh
                { m with context := some ctxF } st dto
              simp [hw1, hw2]

/-- C2 counterexample: a handler with minimum level WARN rejects an INFO
event with the error text of the source, which is not the text the claim
quotes. -/
theorem c2_counterexample :
    Handle { minLevel := WARN } none { level := INFO, context := some [] } ⟨[], false⟩ =
      (.err "below miminum level", { level := INFO, context := some [] }, ⟨[], false⟩) ∧
    "below miminum level" ≠ "below minimum level" := by
  exact ⟨rfl, by decide⟩

/-- C2 (amended): for every handler and every event below the minimum or
above the maximum level, Handle returns an error and writes nothing (the
state and the caller's event are returned unchanged); when the handler's
writer is set the error text is the source's "below miminum level" or
"above maixmum level", and when it is not the error is "no writer". -/
theorem c2_handle_rejects_outside_range (mh : messageHandler) (ci : Option CallerInfo)
    (m : logEntry) (st : HandlerSt)
    (h : m.level.isLessThan mh.minLevel = true ∨ mh.maxLevel.isLessThan m.level = true) :
    ∃ e, Handle mh ci m st = (.err e, m, st) ∧
      (mh.writerSet = false → e = "no writer") ∧
      (mh.writerSet = true →
        e = if m.level.isLessThan mh.minLevel then "below miminum level"
            else "above maixmum level") := by
  by_cases hw : mh.writerSet = false
  · refine ⟨"no writer", by simp [Handle, hw], fun _ => rfl,
      fun hww => absurd hww (by simp [hw])⟩
  · have hwt : mh.writerSet = true := by
      cases hww : mh.writerSet
      · exact absurd hww hw
      · rfl
    by_cases h1 : m.level.isLessThan mh.minLevel = true
    · refine ⟨"below miminum level", by simp [Handle, hw, h1],
        fun hwf => absurd hwt (by simp [hwf]), fun _ => by simp [h1]⟩
    · have h2 : mh.maxLevel.isLessThan m.level = true := by
        rcases h with ha | hb
        · exact absurd ha h1
        · exact hb
      refine ⟨"above maixmum level", by simp [Handle, hw, h1, h2],
        fun hwf => absurd hwt (by simp [hwf]), fun _ => by simp [h1]⟩

/-- C2 witness: the amended theorem applied to a concrete handler with
minimum level WARN and a concrete INFO event. -/
theorem c2_witness :
    ∃ e, Handle { minLevel := WARN } none { level := INFO, context := some [] } ⟨[], false⟩ =
      (.err e, { level := INFO, context := some [] }, ⟨[], false⟩) ∧
      (({ minLevel := WARN } : messageHandler).writerSet = false → e = "no writer") ∧
      (({ minLevel := WARN } : messageHandler).writerSet = true →
        e = if (INFO.isLessThan WARN : Bool) then "below miminum level"
            else "above maixmum level") :=
  c2_handle_rejects_outside_range { minLevel := WARN } none
    { level := INFO, context := some [] } ⟨[], false⟩ (Or.inl (by decide))

/-- C3 counterexample: Handle with a static field writes through the caller's
context map: after the call the caller-visible event has gained the key app,
so the static fields were not merged into a copy. -/
theorem c3_counterexample :
    (Handle { autoFields := some [("app", GoVal.str "x")] } none
        { message := "hello", level := INFO, context := some [("k", GoVal.str "v")] }
        ⟨[], false⟩).2.1.context = some [("k", GoVal.str "v"), ("app", GoVal.str "x")] ∧
    some [("k", GoVal.str "v"), ("app", GoVal.str "x")] ≠
      ({ message := "hello", level := INFO,
         context := some [("k", GoVal.str "v")] } : logEntry).context := by
  exact ⟨rfl, by decide⟩

/-- C3 (amended): WithLevel and WithTags return modified copies and leave the
caller's event unchanged; WithSensitive leaves the caller's event unchanged
only when its sensitive map is nil, and otherwise writes through the shared
map, so the change is visible on the original event; Handle merges the static
fields into the event's own context map, so a successful call leaves the
caller's event with the merged map (here stated for events above DEBUG
importance with no sensitive keys, where the merge is the only context
change). -/
theorem c3_builder_and_merge_effects :
    (∀ (m : logEntry) (lv : Level), WithLevel m lv = (m, { m with level := lv })) ∧
    (∀ (m : logEntry) (tags : List String), WithTags m tags = (m, { m with tags := tags })) ∧
    (∀ (m : logEntry) (k : String) (p : Int), m.sensitive = none →
      (WithSensitive m k p).1 = m) ∧
    (∀ (m : logEntry) (s : List (String × Int)) (k : String) (p : Int),
      m.sensitive = some s →
      (WithSensitive m k p).1 = { m with sensitive := some (mapSet s k p) }) ∧
    (∀ (mh : messageHandler) (ci : Option CallerInfo) (m : logEntry)
        (ctx : List (String × GoVal)) (st : HandlerSt),
      m.context = some ctx → mh.writerSet = true →
      m.level.isLessThan mh.minLevel = false → mh.maxLevel.isLessThan m.level = false →
      DEBUG.importance < m.level.importance → m.sensitive = none →
      (Handle mh ci m st).2.1.context = some (goMapsCopy ctx (mh.autoFields.getD []))) := by
  refine ⟨fun m lv => rfl, fun m tags => rfl, ?_, ?_, ?_⟩
  · intro m k p hs
    unfold WithSensitive
    rw [hs]
  · intro m s k p hs
    unfold WithSensitive
    rw [hs]
  · intro mh ci m ctx st hc hw h1 h2 hdbg hsens
    have hnle : ¬ m.level.importance ≤ DEBUG.importance := not_le.mpr hdbg
    have hpack : packFields ci { m with context := some (goMapsCopy ctx (mh.autoFields.getD [])) } =
        (.ok ⟨m.timestamp, m.level.label, m.message, goMapsCopy ctx (mh.autoFields.getD [])⟩,
          goMapsCopy ctx (mh.autoFields.getD [])) := by
      simp [packFields, hnle, hsens, applySensitive]
    simp only [Handle, hc, hw, h1, h2, if_false, ite_false, Bool.true_eq_false]
    rw [hpack]
    obtain ⟨hw1, hw2⟩ := handleWrite_ok mh
      { m with context := some (goMapsCopy ctx (mh.autoFields.getD [])) } st
      ⟨m.timestamp, m.level.label, m.message, goMapsCopy ctx (mh.autoFields.getD [])⟩
    simp [hw2]

/-- C3 witness: the amended theorem applied at concrete inputs: a WithSensitive
call on an event that already owns a sensitive map, and a Handle call with one
static field on an INFO event. -/
theorem c3_witness :
    (WithSensitive { message := "w", sensitive := some [("a", 1)] } "b" 2).1 =
      { message := "w", sensitive := some (mapSet [("a", 1)] "b" 2) } ∧
    (Handle { autoFields := some [("app", GoVal.str "x")] } none
        { message := "hello", level := INFO, context := some [("k", GoVal.str "v")] }
        ⟨[], false⟩).2.1.context =
      some (goMapsCopy [("k", GoVal.str "v")]
        (({ autoFields := some [("app", GoVal.str "x")] } : messageHandler).autoFields.getD [])) := by
  constructor
  · exact c3_builder_and_merge_effects.2.2.2.1
      { message := "w", sensitive := some [("a", 1)] } [("a", 1)] "b" 2 rfl
  · exact c3_builder_and_merge_effects.2.2.2.2
      { autoFields := some [("app", GoVal.str "x")] } none
      { message := "hello", level := INFO, context := some [("k", GoVal.str "v")] }
      [("k", GoVal.str "v")] ⟨[], false⟩ rfl rfl (by decide) (by decide) (by decide) rfl

/-- C4: shutdown is not idempotent: the first trigger closes the input
channel, but every further trigger closes an already-closed channel and
panics instead of being a no-op; a delivered FATAL event raises the
signalShutdown flag that leads the worker into that second close. -/
theorem c4_shutdown_not_idempotent :
    (shutdown ⟨false⟩).1 = .ok ∧ (shutdown ⟨false⟩).2 = ⟨true⟩ ∧
    shutdown ⟨true⟩ = (.crash "close of closed channel", ⟨true⟩) ∧
    (Handle {} none { level := FATAL, context := some [] } ⟨[], false⟩).2.2.signalShutdown = true := by
  refine ⟨rfl, rfl, rfl, by decide⟩

/-- C5 counterexample: a DEBUG-level event whose sensitive map names the key
file, absent from the event's context, packs successfully: the caller keys
injected for diagnostic levels defeat the absence check. -/
theorem c5_counterexample :
    (∃ d, (packFields none
        { level := DEBUG, sensitive := some [("file", 1)], context := some [] }).1 =
        .ok d) ∧
    mapGet (({ level := DEBUG, sensitive := some [("file", 1)], context := some [] } :
        logEntry).context.getD []) "file" = none ∧
    ("file", (1 : Int)) ∈ (({ level := DEBUG, sensitive := some [("file", 1)], context := some [] } : logEntry).sensitive.getD []) := by
  refine ⟨⟨_, rfl⟩, rfl, by decide⟩

/-- C5 (amended): for every event at importance strictly above DEBUG's,
packing fails with an error and produces no packed entry whenever some key of
the sensitive map is the empty string or is absent from the event's context
(at DEBUG importance or below, the caller keys file/func/line are injected
into the context before the check, which is what the counterexample
exploits); and every Handle call that does not succeed leaves the handler's
destination untouched: no bytes are written on any failure path, pack
failures included. -/
theorem c5_pack_failure_writes_nothing :
    (∀ (ci : Option CallerInfo) (m : logEntry),
      DEBUG.importance < m.level.importance →
      (∃ kp ∈ m.sensitive.getD [], kp.1 = "" ∨ mapGet (m.context.getD []) kp.1 = none) →
      ∃ e, (packFields ci m).1 = .error e) ∧
    (∀ (mh : messageHandler) (ci : Option CallerInfo) (m : logEntry) (st : HandlerSt),
      (Handle mh ci m st).1 ≠ .ok → ((Handle mh ci m st).2.2).out = st.out) := by
  constructor
  · intro ci m hdbg hbad
    have hnle : ¬ m.level.importance ≤ DEBUG.importance := not_le.mpr hdbg
    obtain ⟨e, he⟩ := applySensitive_err (m.sensitive.getD []) (m.context.getD []) hbad
    refine ⟨e, ?_⟩
    cases hap : applySensitive (m.sensitive.getD []) (m.context.getD []) with
    | mk oe ctxF =>
      rw [hap] at he
      replace he : oe = some e := he
      subst he
      simp [packFields, hnle, hap]
  · intro mh ci m st hne
    by_cases hw : mh.writerSet = false
    · simp [Handle, hw]
    · by_cases h1 : m.level.isLessThan mh.minLevel = true
      · simp [Handle, hw, h1]
      · by_cases h2 : mh.maxLevel.isLessThan m.level = true
        · simp [Handle, hw, h1, h2]
        · cases hc : m.context with
          | none =>
            by_cases haf : (mh.autoFields.getD []).length = 0
            · cases hp : (packFields ci m).1 with
              | error e => simp [Handle, hw, h1, h2, hc, haf, hp]
              | ok dto =>
                exact absurd (by simp [Handle, hw, h1, h2, hc, haf, hp,
                  (handleWrite_ok mh m st dto).1]) hne
            · simp [Handle, hw, h1, h2, hc, haf]
          | some ctx =>
            cases hp : packFields ci
                { m with context := some (goMapsCopy ctx (mh.autoFields.getD [])) } with
            | mk res ctxF =>
              cases res with
              | error e => simp [Handle, hw, h1, h2, hc, hp]
              | ok dto =>
                exact absurd (by simp [Handle, hw, h1, h2, hc, hp,
                  (handleWrite_ok mh { m with context := some ctxF } st dto).1]) hne

/-- C5 witness: the amended theorem at concrete inputs: an INFO event whose
sensitive key pwd is absent from the context fails to pack, and a rejected
Handle call writes nothing. -/
theorem c5_witness :
    (∃ e, (packFields none
        { level := INFO, sensitive := some [("pwd", 1)], context := some [] }).1 =
        .error e) ∧
    ((Handle { minLevel := WARN } none { level := INFO, context := some [] }
        ⟨["old"], false⟩).2.2).out = ["old"] := by
  constructor
  · exact c5_pack_failure_writes_nothing.1 none
      { level := INFO, sensitive := some [("pwd", 1)], context := some [] }
      (by decide) ⟨("pwd", 1), by decide, Or.inr rfl⟩
  · exact c5_pack_failure_writes_nothing.2 { minLevel := WARN } none
      { level := INFO, context := some [] } ⟨["old"], false⟩ (by decide)

/-- One placeholder per rune: mapping every rune to the mark yields a
replicate of the length. -/
theorem map_const_mark : ∀ (l : List Char),
    l.map (fun _ => '?') = List.replicate l.length '?'
  | [] => rfl
  | a :: as => by simp [map_const_mark as, List.replicate_succ]

/-- The mask's rune sequence is a replicate of the original's rune count. -/
theorem obfuscate_data (v : GoVal) (p : Int) :
    (obfuscate v p).data = List.replicate v.format.data.length '?' := by
  show (v.format.data.map (fun _ => '?')) = _
  exact map_const_mark _

/-- C6 counterexample: obfuscating the context value consisting of two
question marks yields the very same string, so the packed value contains a
non-empty substring of the original value: the no-substring guarantee fails
whenever the original already contains the placeholder character. -/
theorem c6_counterexample :
    (packFields none
        { level := INFO, sensitive := some [("pwd", 1)], context := some [("pwd", GoVal.str "??")] }).1 =
      .ok ⟨⟨1, 1, 1, 0, 0, 0⟩, "INFO", "", [("pwd", GoVal.str "??")]⟩ ∧
    strContains "?" "??" ∧ ("?" : String) ≠ "" := by
  refine ⟨rfl, ⟨[], ['?'], by decide⟩, by decide⟩

/-- C6 (amended): the obfuscated value is one placeholder character per rune
of the formatted original value, preserving its rune count; whenever the
original contains no placeholder character, the mask shares no non-empty
substring with it; and for every event above DEBUG importance whose sensitive
keys are distinct, non-empty and present in the context, the packed context
holds exactly that mask for each sensitive key. -/
theorem c6_obfuscation_mask :
    (∀ (v : GoVal) (p : Int),
      (obfuscate v p).data = List.replicate v.format.data.length '?') ∧
    (∀ (v : GoVal) (p : Int) (l : List Char), l ≠ [] →
      (∃ a b, (obfuscate v p).data = a ++ l ++ b) →
      '?' ∉ v.format.data → ¬ ∃ c d, v.format.data = c ++ l ++ d) ∧
    (∀ (ci : Option CallerInfo) (m : logEntry) (k : String) (p : Int) (v : GoVal),
      DEBUG.importance < m.level.importance →
      ((m.sensitive.getD []).map Prod.fst).Nodup →
      (k, p) ∈ m.sensitive.getD [] →
      mapGet (m.context.getD []) k = some v →
      (∀ kp ∈ m.sensitive.getD [], kp.1 ≠ "" ∧
        (mapGet (m.context.getD []) kp.1).isSome = true) →
      ∃ dto, (packFields ci m).1 = .ok dto ∧
        mapGet dto.context k = some (.str (obfuscate v p))) := by
  refine ⟨obfuscate_data, ?_, ?_⟩
  · rintro v p l hl ⟨a, b, hab⟩ hq ⟨c, d, hcd⟩
    obtain ⟨x, hx⟩ := List.exists_mem_of_ne_nil l hl
    have hxrep : x ∈ List.replicate v.format.data.length '?' := by
      rw [← obfuscate_data v p, hab]
      simp [hx]
    have hxq : x = '?' := List.eq_of_mem_replicate hxrep
    apply hq
    rw [hcd]
    subst hxq
    simp [hx]
  · intro ci m k p v hdbg hnd hmem hget hgood
    have hnle : ¬ m.level.importance ≤ DEBUG.importance := not_le.mpr hdbg
    have hok := applySensitive_ok (m.sensitive.getD []) (m.context.getD []) hgood
    have hval := applySensitive_val (m.sensitive.getD []) (m.context.getD []) hnd hmem hget hgood
    cases hap : applySensitive (m.sensitive.getD []) (m.context.getD []) with
    | mk oe ctxF =>
      rw [hap] at hok hval
      replace hok : oe = none := hok
      subst hok
      refine ⟨⟨m.timestamp, m.level.label, m.message, ctxF⟩, ?_, hval⟩
      simp [packFields, hnle, hap]

/-- C6 witness: the amended theorem applied to the spec's own example: the
sensitive key pwd whose context value is secret. -/
theorem c6_witness :
    ∃ dto, (packFields none
        { level := INFO, sensitive := some [("pwd", 1)], context := some [("pwd", GoVal.str "secret")] }).1 = .ok dto ∧
      mapGet dto.context "pwd" = some (.str (obfuscate (GoVal.str "secret") 1)) := by
  exact c6_obfuscation_mask.2.2 none
    { level := INFO, sensitive := some [("pwd", 1)],
      context := some [("pwd", GoVal.str "secret")] }
    "pwd" 1 (GoVal.str "secret") (by decide) (by decide) (by decide) rfl (by decide)

/-- The handler loop neither panics nor loses accounting on events with a
non-nil context: every handler either accepts (counted in processed) or
contributes exactly one reason. -/
theorem runHandlers_spec (ci : Option CallerInfo) (hs : List HandlerEntry) :
    ∀ (m : logEntry) (sig : Bool) (p : Nat) (rs : List String),
      m.context.isSome = true →
      (runHandlers ci hs m sig p rs).crash = none ∧
      (runHandlers ci hs m sig p rs).processed +
        (runHandlers ci hs m sig p rs).reasons.length = p + rs.length + hs.length := by
  induction hs with
  | nil =>
    intro m sig p rs _
    simp [runHandlers]
  | cons he rest ih =>
    intro m sig p rs h
    obtain ⟨htot, hctx⟩ := Handle_total he.mh ci m ⟨he.out, sig⟩ h
    cases hres : Handle he.mh ci m ⟨he.out, sig⟩ with
    | mk res rest2 =>
      obtain ⟨m1, st1⟩ := rest2
      rw [hres] at htot hctx
      cases res with
      | ok =>
        obtain ⟨hc1, hc2⟩ := ih m1 st1.signalShutdown (p + 1) rs hctx
        constructor
        · simp [runHandlers, hres, hc1]
        · simp only [runHandlers, hres, List.length_cons]
          omega
      | err e =>
        obtain ⟨hc1, hc2⟩ := ih m1 st1.signalShutdown p (rs ++ [e]) hctx
        constructor
        · simp [runHandlers, hres, hc1]
        · simp only [runHandlers, hres, List.length_cons]
          simp only [List.length_append, List.length_singleton] at hc2
          omega
      | crash e =>
        rcases htot with h1 | ⟨e2, h2⟩
        · cases h1
        · cases h2

/-- C1: processMessage on an event with a non-nil context map (every event
the package constructs has one): an empty handler set yields the error
message lost: no handlers and nothing is written or changed; with handlers
present the loop never panics, every handler either accepts or contributes
exactly one reason, zero acceptances yield the aggregate message lost error
listing the collected reasons, and at least one acceptance yields a nil
error. -/
theorem c1_processMessage_outcomes (ci : Option CallerInfo)
    (handlers : List HandlerEntry) (sig : Bool) (m : logEntry)
    (hctx : m.context.isSome = true) :
    (handlers = [] →
      processMessage ci handlers sig m =
        (.err "message lost: no handlers", handlers, sig, m)) ∧
    (handlers ≠ [] →
      (runHandlers ci handlers m sig 0 []).crash = none ∧
      (runHandlers ci handlers m sig 0 []).processed +
        (runHandlers ci handlers m sig 0 []).reasons.length = handlers.length ∧
      ((runHandlers ci handlers m sig 0 []).processed = 0 →
        (processMessage ci handlers sig m).1 =
          .err ("message lost: " ++
            goFmtStrSlice (runHandlers ci handlers m sig 0 []).reasons)) ∧
      (0 < (runHandlers ci handlers m sig 0 []).processed →
        (processMessage ci handlers sig m).1 = .ok)) := by
  constructor
  · intro he
    subst he
    rfl
  · intro hne
    obtain ⟨hc1, hc2⟩ := runHandlers_spec ci handlers m sig 0 [] hctx
    have hlen : ¬ handlers.length = 0 := by
      intro h0
      exact hne (List.length_eq_zero.mp h0)
    refine ⟨hc1, by simpa using hc2, ?_, ?_⟩
    · intro hp0
      simp [processMessage, hlen, hc1, hp0]
    · intro hppos
      have hp : ¬ (runHandlers ci handlers m sig 0 []).processed = 0 :=
        Nat.pos_iff_ne_zero.mp hppos
      simp [processMessage, hlen, hc1, hp]

/-- C1 witness: the theorem applied at concrete inputs: the empty handler set
loses a concrete INFO event with the no-handlers error, and a single handler
with minimum level WARN rejects it, producing the aggregate loss error. -/
theorem c1_witness :
    processMessage none [] false { level := INFO, context := some [] } =
      (.err "message lost: no handlers", [], false, { level := INFO, context := some [] }) ∧
    (processMessage none [⟨"", { minLevel := WARN }, []⟩] false
        { level := INFO, context := some [] }).1 =
      .err ("message lost: " ++ goFmtStrSlice (runHandlers none
        [⟨"", { minLevel := WARN }, []⟩] { level := INFO, context := some [] } false 0 []).reasons) := by
  constructor
  · exact (c1_processMessage_outcomes none [] false
      { level := INFO, context := some [] } rfl).1 rfl
  · exact ((c1_processMessage_outcomes none [⟨"", { minLevel := WARN }, []⟩] false
      { level := INFO, context := some [] } rfl).2 (by simp)).2.2.1 (by decide)

/-- Parsing the flattening of key/value pairs folds them into the context. -/
theorem parseArgs_interleave (pairs : List (String × GoVal)) :
    ∀ (key : String) (ctx : List (String × GoVal)),
      parseArgs (interleave pairs) false key ctx =
        .ok (pairs.foldl (fun c kv => mapSet c kv.1 kv.2) ctx) := by
  induction pairs with
  | nil =>
    intro key ctx
    rfl
  | cons kv rest ih =>
    intro key ctx
    obtain ⟨k, v⟩ := kv
    simp only [interleave, parseArgs, List.foldl_cons]
    exact ih k (mapSet ctx k v)

theorem foldl_mapSet_not_mem (pairs : List (String × GoVal)) {k : String} :
    k ∉ pairs.map Prod.fst →
    ∀ ctx, mapGet (pairs.foldl (fun c kv => mapSet c kv.1 kv.2) ctx) k = mapGet ctx k := by
  induction pairs with
  | nil =>
    intro _ ctx
    rfl
  | cons kv rest ih =>
    intro h ctx
    simp only [List.map_cons, List.mem_cons, not_or] at h
    obtain ⟨h1, h2⟩ := h
    simp only [List.foldl_cons]
    rw [ih h2, mapGet_mapSet_ne _ _ (fun he => h1 he.symm)]

theorem foldl_mapSet_mem (pairs : List (String × GoVal)) {k : String} {v : GoVal} :
    (pairs.map Prod.fst).Nodup → (k, v) ∈ pairs →
    ∀ ctx, mapGet (pairs.foldl (fun c kv => mapSet c kv.1 kv.2) ctx) k = some v := by
  induction pairs with
  | nil =>
    intro _ hm
    cases hm
  | cons kv rest ih =>
    intro hnd hm ctx
    obtain ⟨k0, v0⟩ := kv
    simp only [List.map_cons, List.nodup_cons] at hnd
    obtain ⟨hnotin, hnd2⟩ := hnd
    rcases List.mem_cons.mp hm with heq | hmem
    · injection heq with e1 e2
      subst e1
      subst e2
      simp only [List.foldl_cons]
      rw [foldl_mapSet_not_mem rest hnotin, mapGet_mapSet_self]
    · simp only [List.foldl_cons]
      exact ih hnd2 hmem _

/-- The argument loop fails on the source's malformed-arguments error as soon
as some even position holds a non-string. -/
theorem parseArgs_bad (args : List GoVal) :
    (∃ a ∈ evenPositions args, a.isStr = false) →
    ∀ (key : String) (ctx : List (String × GoVal)),
      parseArgs args false key ctx =
        .error "expect string as a key on even positions of arguments" := by
  induction args using evenPositions.induct with
  | case1 =>
    intro h
    simp [evenPositions] at h
  | case2 a =>
    intro h key ctx
    simp [evenPositions] at h
    cases a with
    | str s => simp [GoVal.isStr] at h
    | int n => rfl
    | bool b => rfl
  | case3 a b rest ih =>
    intro h key ctx
    cases a with
    | int n => rfl
    | bool bb => rfl
    | str s =>
      have h2 : ∃ x ∈ evenPositions rest, x.isStr = false := by
        obtain ⟨x, hx, hxbad⟩ := h
        simp only [evenPositions, List.mem_cons] at hx
        rcases hx with he | hm
        · subst he
          simp [GoVal.isStr] at hxbad
        · exact ⟨x, hm, hxbad⟩
      simp only [parseArgs]
      exact ih h2 s (mapSet ctx s b)

/-- C7: construction from the flattening of key/value pairs with distinct
keys succeeds and the context holds exactly those pairs: a lookup returns
some v precisely when (k, v) is among the pairs; and construction from any
argument list with a non-string at an even position fails with the
malformed-arguments error, producing no entry. -/
theorem c7_newMessageSafe_alternating (ts : GoTime) (text : String)
    (pairs : List (String × GoVal)) (hnd : (pairs.map Prod.fst).Nodup)
    (args : List GoVal) (hbad : ∃ a ∈ evenPositions args, a.isStr = false) :
    (∃ ctx, newMessageSafe ts text (interleave pairs) =
        .ok { message := text, timestamp := ts, context := some ctx } ∧
      (∀ k v, mapGet ctx k = some v ↔ (k, v) ∈ pairs)) ∧
    newMessageSafe ts text args =
      .error "expect string as a key on even positions of arguments" := by
  constructor
  · refine ⟨pairs.foldl (fun c kv => mapSet c kv.1 kv.2) [], ?_, ?_⟩
    · simp [newMessageSafe, parseArgs_interleave pairs "" []]
    · intro k v
      constructor
      · intro hget
        by_cases hk : k ∈ pairs.map Prod.fst
        · obtain ⟨kv, hkv, hfst⟩ := List.mem_map.mp hk
          obtain ⟨k1, v1⟩ := kv
          simp only at hfst
          subst hfst
          have hv1 := foldl_mapSet_mem pairs hnd hkv []
          rw [hv1] at hget
          injection hget with he
          subst he
          exact hkv
        · rw [foldl_mapSet_not_mem pairs hk []] at hget
          cases hget
      · intro hm
        exact foldl_mapSet_mem pairs hnd hm []
  · have hrun := parseArgs_bad args hbad "" []
    simp [newMessageSafe, hrun]

/-- C7 witness: the theorem at concrete inputs: two distinct pairs build the
expected context, and a lone integer argument is rejected. -/
theorem c7_witness :
    (∃ ctx, newMessageSafe ⟨2024, 1, 2, 3, 4, 5⟩ "t"
        (interleave [("a", GoVal.int 1), ("b", GoVal.str "x")]) =
        .ok { message := "t", timestamp := ⟨2024, 1, 2, 3, 4, 5⟩, context := some ctx } ∧
      (∀ k v, mapGet ctx k = some v ↔ (k, v) ∈ [("a", GoVal.int 1), ("b", GoVal.str "x")])) ∧
    newMessageSafe ⟨2024, 1, 2, 3, 4, 5⟩ "t" [GoVal.int 7] =
      .error "expect string as a key on even positions of arguments" :=
  c7_newMessageSafe_alternating ⟨2024, 1, 2, 3, 4, 5⟩ "t"
    [("a", GoVal.int 1), ("b", GoVal.str "x")] (by decide)
    [GoVal.int 7] ⟨GoVal.int 7, by decide, rfl⟩

/-- C9 counterexample: with the arguments a, 1, a the construction succeeds
but the trailing key a duplicates an earlier key and does appear as a key of
the resulting context. -/
theorem c9_counterexample :
    newMessageSafe ⟨2024, 1, 2, 3, 4, 5⟩ "t" [GoVal.str "a", GoVal.int 1, GoVal.str "a"] =
      .ok { message := "t", timestamp := ⟨2024, 1, 2, 3, 4, 5⟩, context := some [("a", GoVal.int 1)] } ∧
    mapGet [("a", GoVal.int 1)] "a" ≠ none := by
  exact ⟨rfl, by decide⟩

/-- The loop on an odd-length argument list whose even positions are all
strings: the final lone key is read and then discarded, so the result is that
of the list without its last element, and it is a success. -/
theorem parseArgs_odd_drop (args : List GoVal) :
    args.length % 2 = 1 → (∀ a ∈ evenPositions args, a.isStr = true) →
    ∀ (key : String) (ctx : List (String × GoVal)),
      parseArgs args false key ctx = parseArgs args.dropLast false key ctx ∧
      ∃ c, parseArgs args false key ctx = .ok c := by
  induction args using evenPositions.induct with
  | case1 =>
    intro h
    simp at h
  | case2 a =>
    intro _ hstr key ctx
    have ha := hstr a (by simp [evenPositions])
    cases a with
    | str s => exact ⟨rfl, ⟨ctx, rfl⟩⟩
    | int n => simp [GoVal.isStr] at ha
    | bool b => simp [GoVal.isStr] at ha
  | case3 a b rest ih =>
    intro hlen hstr key ctx
    have ha := hstr a (by simp [evenPositions])
    cases a with
    | int n => simp [GoVal.isStr] at ha
    | bool bb => simp [GoVal.isStr] at ha
    | str s =>
      have hlen2 : rest.length % 2 = 1 := by
        simp only [List.length_cons] at hlen
        omega
      have hstr2 : ∀ x ∈ evenPositions rest, x.isStr = true := by
        intro x hx
        apply hstr
        simp only [evenPositions, List.mem_cons]
        exact Or.inr hx
      have hrestne : rest ≠ [] := by
        intro he
        rw [he] at hlen2
        simp at hlen2
      obtain ⟨hd, c, hc⟩ := ih hlen2 hstr2 s (mapSet ctx s b)
      constructor
      · have hdl2 : (b :: rest).dropLast = b :: rest.dropLast := by
          cases rest with
          | nil => exact absurd rfl hrestne
          | cons r rs => rfl
        show parseArgs rest false s (mapSet ctx s b) =
          parseArgs ((GoVal.str s :: b :: rest).dropLast) false key ctx
        have hdl : (GoVal.str s :: b :: rest).dropLast = GoVal.str s :: (b :: rest).dropLast := by
          cases rest with
          | nil => exact absurd rfl hrestne
          | cons r rs => rfl
        rw [hdl, hdl2]
        simp only [parseArgs]
        exact hd
      · exact ⟨c, hc⟩

/-- C9 (amended): for every odd-length argument list whose even positions are
all strings, construction succeeds without error and the trailing key
contributes no binding: the result equals that of the argument list without
its last element (the trailing key can still appear as a key of the context
when it duplicates an earlier key, as the counterexample shows). -/
theorem c9_trailing_key_dropped (ts : GoTime) (text : String) (args : List GoVal)
    (hodd : args.length % 2 = 1)
    (hstr : ∀ a ∈ evenPositions args, a.isStr = true) :
    newMessageSafe ts text args = newMessageSafe ts text args.dropLast ∧
    ∃ m, newMessageSafe ts text args = .ok m := by
  obtain ⟨hd, c, hc⟩ := parseArgs_odd_drop args hodd hstr "" []
  constructor
  · simp [newMessageSafe, hd]
  · exact ⟨{ message := text, timestamp := ts, context := some c },
      by simp [newMessageSafe, hc]⟩

/-- C9 witness: the amended theorem at the concrete odd argument list a, 1, b. -/
theorem c9_witness :
    newMessageSafe ⟨2024, 1, 2, 3, 4, 5⟩ "t" [GoVal.str "a", GoVal.int 1, GoVal.str "b"] =
      newMessageSafe ⟨2024, 1, 2, 3, 4, 5⟩ "t"
        ([GoVal.str "a", GoVal.int 1, GoVal.str "b"].dropLast) ∧
    ∃ m, newMessageSafe ⟨2024, 1, 2, 3, 4, 5⟩ "t"
        [GoVal.str "a", GoVal.int 1, GoVal.str "b"] = .ok m :=
  c9_trailing_key_dropped ⟨2024, 1, 2, 3, 4, 5⟩ "t" _ (by decide) (by decide)

/-- Trimming the trailing separator appended by the formatter's key loop. -/
theorem goTrimSuffix_semi (x : String) : goTrimSuffix (x ++ "; ") "; " = x := by
  have h1 : (x ++ "; ").data = x.data ++ [';', ' '] := by
    rw [String.data_append]
  have hlen : (x.data ++ [';', ' ']).length = x.data.length + 2 := by simp
  have hcond : ("; " : String).data.length ≤ (x ++ "; ").data.length ∧
      (x ++ "; ").data.drop ((x ++ "; ").data.length - ("; " : String).data.length) =
        ("; " : String).data := by
    constructor
    · rw [h1, hlen]
      show 2 ≤ x.data.length + 2
      omega
    · rw [h1, hlen]
      show (x.data ++ [';', ' ']).drop (x.data.length + 2 - 2) = [';', ' ']
      have h2 : x.data.length + 2 - 2 = x.data.length := by omega
      rw [h2]
      exact List.drop_left x.data [';', ' ']
  have htake : (x ++ "; ").data.take ((x ++ "; ").data.length - ("; " : String).data.length) =
      x.data := by
    rw [h1, hlen]
    show (x.data ++ [';', ' ']).take (x.data.length + 2 - 2) = x.data
    have h2 : x.data.length + 2 - 2 = x.data.length := by omega
    rw [h2]
    exact List.take_left x.data [';', ' ']
  unfold goTrimSuffix
  rw [if_pos hcond, htake]

/-- The formatter's accumulation loop produces the separator-joined chunks
followed by one trailing separator. -/
theorem foldl_chunks (f : String → String) :
    ∀ (keys : List String) (s : String), keys ≠ [] →
      keys.foldl (fun acc k => acc ++ (f k ++ "; ")) s =
        (s ++ sepJoin "; " (keys.map f)) ++ "; " := by
  intro keys
  induction keys with
  | nil =>
    intro s h
    exact absurd rfl h
  | cons k1 rest ih =>
    intro s _
    cases rest with
    | nil =>
      show s ++ (f k1 ++ "; ") = (s ++ f k1) ++ "; "
      exact (String.append_assoc s (f k1) "; ").symm
    | cons k2 rest2 =>
      show List.foldl (fun acc k => acc ++ (f k ++ "; ")) (s ++ (f k1 ++ "; ")) (k2 :: rest2) =
        (s ++ sepJoin "; " (List.map f (k1 :: k2 :: rest2))) ++ "; "
      rw [ih (s ++ (f k1 ++ "; ")) (by simp)]
      congr 1
      show (s ++ (f k1 ++ "; ")) ++ sepJoin "; " (List.map f (k2 :: rest2)) =
        s ++ sepJoin "; " (f k1 :: List.map f (k2 :: rest2))
      have hsep : sepJoin "; " (f k1 :: List.map f (k2 :: rest2)) =
          f k1 ++ "; " ++ sepJoin "; " (List.map f (k2 :: rest2)) := by
        simp [sepJoin]
      rw [hsep]
      simp [String.append_assoc]

theorem insertSorted_ne_nil (x : String) (l : List String) : insertSorted x l ≠ [] := by
  cases l with
  | nil => simp [insertSorted]
  | cons y rest =>
    by_cases h : strLe x y
    · simp [insertSorted, h]
    · simp [insertSorted, h]

theorem sortStrings_ne_nil {l : List String} (h : l ≠ []) : sortStrings l ≠ [] := by
  cases l with
  | nil => exact absurd rfl h
  | cons a rest => exact insertSorted_ne_nil a (sortStrings rest)

/-- C8 counterexample: the default formatter wraps context values in double
quotes, so its output differs from the claim's bare key1=val1 template at a
concrete packed event. -/
theorem c8_counterexample :
    basicFormat ⟨⟨2024, 1, 2, 3, 4, 5⟩, "INFO", "m", [("k", GoVal.str "v")]⟩ =
      "2024-01-02 03:04:05 [INFO] m: k=\"v\"" ∧
    "2024-01-02 03:04:05 [INFO] m: k=\"v\"" ≠ "2024-01-02 03:04:05 [INFO] m: k=v" := by
  exact ⟨by decide, by decide⟩

/-- C8 (amended): the default formatter returns the empty string when both
the message and the context are empty, and on every packed event with a
non-empty context returns the single line TIME [LEVEL] message: key1="val1";
key2="val2" with the context keys sorted lexicographically and each value
wrapped in double quotes (the claim's template without quotes is what the
counterexample refutes). -/
theorem c8_format_line (e : EntryDTO) :
    (e.message = "" ∧ e.context = [] → basicFormat e = "") ∧
    (e.context ≠ [] → basicFormat e = specLine e) := by
  constructor
  · rintro ⟨hm, hc⟩
    simp [basicFormat, hm, hc]
  · intro hc
    have hlen : e.context.length ≠ 0 := by
      intro h0
      exact hc (List.length_eq_zero.mp h0)
    have hpos : 0 < e.context.length := Nat.pos_of_ne_zero hlen
    have hkeys : sortStrings (e.context.map Prod.fst) ≠ [] := by
      apply sortStrings_ne_nil
      intro h0
      exact hc (List.map_eq_nil_iff.mp h0)
    have hifc : ¬ (e.message = "" ∧ e.context.length = 0) := by
      rintro ⟨_, h0⟩
      exact hlen h0
    simp only [basicFormat, hifc, if_false, ite_false, hpos, if_true, ite_true, ctxChunk]
    rw [foldl_chunks (ctxChunkCore e.context) (sortStrings (e.context.map Prod.fst)) _ hkeys]
    rw [goTrimSuffix_semi]
    simp only [specLine]

/-- C8 witness: the amended theorem at a concrete two-key packed event and at
the empty event. -/
theorem c8_witness :
    basicFormat ⟨⟨2024, 1, 2, 3, 4, 5⟩, "INFO", "m", [("k", GoVal.str "v"), ("a", GoVal.int 3)]⟩ =
      specLine ⟨⟨2024, 1, 2, 3, 4, 5⟩, "INFO", "m", [("k", GoVal.str "v"), ("a", GoVal.int 3)]⟩ ∧
    basicFormat ⟨⟨2024, 1, 2, 3, 4, 5⟩, "", "", []⟩ = "" := by
  constructor
  · exact (c8_format_line _).2 (by simp)
  · exact (c8_format_line _).1 ⟨rfl, rfl⟩

end GSLog
